import Mathlib

/-!
Verification of the money-muling detection engine.

The engine (detection.js) consists of four functions:
`buildGraph`, `detectCycles`, `detectFanPatterns`, `calculateSuspicion`,
plus an orchestrator (server.js, POST /analyze) that deduplicates the
account set, collects non-null suspicion results and sorts them by
descending score.

JavaScript objects used as dictionaries are embedded as insertion-ordered
association lists (`List (String × _)`); `Set` iteration order is insertion
order, embedded by first-occurrence deduplication; `Array.prototype.sort`
is a stable sort by the comparator, embedded as `List.mergeSort`.
`for...in` enumerates an object's integer-like keys (canonical array
indices) first, in ascending numeric order, and only then the remaining
string keys in insertion order — embedded by `jsKeys`.
-/

/-- A parsed transaction row: `{sender_id, receiver_id}`. -/
structure Tx where
  sender_id : String
  receiver_id : String
deriving Repr, DecidableEq

/-- The adjacency structure: account id ↦ ordered list of receivers it sent to. -/
abbrev Graph := List (String × List String)

/-- A counting map: account id ↦ count. -/
abbrev CountMap := List (String × Nat)

/-- Dictionary lookup on an association list (JS `obj[key]`, `undefined` = `none`). -/
def alistLookup {α : Type} (m : List (String × α)) (k : String) : Option α :=
  match m with
  | [] => none
  | (k₀, v) :: rest => if k = k₀ then some v else alistLookup rest k

/-- `graph[s].push(r)`, creating `graph[s] = []` first if absent;
a fresh key is appended at the end (JS object insertion order). -/
def graphAdd (g : Graph) (s r : String) : Graph :=
  match g with
  | [] => [(s, [r])]
  | (k, vs) :: rest => if k = s then (k, vs ++ [r]) :: rest else (k, vs) :: graphAdd rest s r

/-- `m[k] = (m[k] || 0) + 1`, creating the key at the end if absent. -/
def countInc (m : CountMap) (k : String) : CountMap :=
  match m with
  | [] => [(k, 1)]
  | (k₀, n) :: rest => if k₀ = k then (k₀, n + 1) :: rest else (k₀, n) :: countInc rest k

/-- GRAPH BUILDING: for each transaction, append the receiver to the
sender's adjacency entry and bump the sender's velocity count. -/
def buildGraph (transactions : List Tx) : Graph × CountMap :=
  transactions.foldl
    (fun acc tx => (graphAdd acc.1 tx.sender_id tx.receiver_id, countInc acc.2 tx.sender_id))
    ([], [])

/-- A detected ring. -/
structure FraudRing where
  ring_id : String
  member_accounts : List String
  pattern_type : String
  risk_score : Nat
deriving Repr, DecidableEq

/-- `String(n).padStart(3, "0")`. -/
def padStart (s : String) (n : Nat) (c : Char) : String :=
  String.mk (List.replicate (n - s.length) c) ++ s

/-- The id `RING_NNN` minted for the `n`-th discovered ring (1-based). -/
def ringIdOfCount (n : Nat) : String :=
  "RING_" ++ padStart (toString n) 3 '0'

/-- The DFS of `detectCycles`.  The source tracks `depth`, entered only while
`depth ≤ 6` (`if (depth > 6) return`), so with `fuel = 7 - depth` the entry
guard becomes `fuel = 0`.  For each neighbor of `current`: if it equals
`start` and the path has length ≥ 3, record a copy of the path; if it is not
already on the path, recurse with the path extended.  Results are the
recorded paths in discovery (push) order. -/
def dfs (graph : Graph) (start : String) (current : String) (path : List String)
    (fuel : Nat) : List (List String) :=
  match fuel with
  | 0 => []
  | Nat.succ fuel =>
    match alistLookup graph current with
    | none => []
    | some neighbors =>
      neighbors.flatMap (fun neighbor =>
        (if neighbor = start ∧ 3 ≤ path.length then [path] else []) ++
        (if neighbor ∈ path then []
         else dfs graph start neighbor (path ++ [neighbor]) fuel))

/-- Numeric value of a digit string. -/
def digitsVal (l : List Char) : Nat :=
  l.foldl (fun acc c => acc * 10 + (c.toNat - 48)) 0

/-- Whether `s` is a canonical array-index key, the integer-like keys that
JS `for...in` enumerates first: digits only, no leading zero (except "0"
itself), numeric value below 2^32 - 1. -/
def isArrayIndex (s : String) : Bool :=
  !s.data.isEmpty &&
  s.data.all (fun c => c.isDigit) &&
  (s.data == ['0'] || s.data.head? != some '0') &&
  decide (digitsVal s.data < 4294967295)

/-- Insert a key into a list kept ascending by numeric value. -/
def insertByVal (k : String) : List String → List String
  | [] => [k]
  | k₀ :: rest =>
    if digitsVal k.data ≤ digitsVal k₀.data then k :: k₀ :: rest
    else k₀ :: insertByVal k rest

/-- Sort array-index keys ascending by numeric value (insertion sort;
distinct canonical numeric strings have distinct values, so this is the
JS enumeration order of the integer-like keys). -/
def sortArrayIndexKeys (ks : List String) : List String :=
  ks.foldr insertByVal []

/-- The key order of the JS `for (let node in graph)` loop: integer-like
(array-index) keys first, in ascending numeric order, then the remaining
keys in insertion order. -/
def jsKeys (graph : Graph) : List String :=
  sortArrayIndexKeys ((graph.map Prod.fst).filter isArrayIndex) ++
  (graph.map Prod.fst).filter (fun k => !(isArrayIndex k))

/-- The member-account paths recorded by `detectCycles`, in discovery order:
the outer loop starts a fresh search `dfs(node, node, [node], 0)` from every
key of the graph, in `for...in` enumeration order (`jsKeys`). -/
def detectCyclesPaths (graph : Graph) : List (List String) :=
  (jsKeys graph).flatMap (fun node => dfs graph node node [node] 7)

/-- CYCLE DETECTION (DFS up to 6): each recorded path becomes a FraudRing with a
sequential `RING_NNN` id (the counter starts at 1 on every invocation),
`pattern_type = "cycle"` and `risk_score = 90 + path length`. -/
def detectCycles (graph : Graph) : List FraudRing :=
  (detectCyclesPaths graph).enum.map (fun p =>
    { ring_id := ringIdOfCount (p.1 + 1)
      member_accounts := p.2
      pattern_type := "cycle"
      risk_score := 90 + p.2.length })

/-- The rotation of the 3-cycle A→B→C→A that starts at account `k`
(used to state what `detectCycles` returns on such a cycle). -/
def threeRotation (A B C k : String) : List String :=
  if k = A then [A, B, C] else if k = B then [B, C, A] else [C, A, B]

/-- FAN-IN / FAN-OUT: count, per account, the transactions listing it as
receiver (fanIn) and as sender (fanOut). -/
def detectFanPatterns (transactions : List Tx) : CountMap × CountMap :=
  transactions.foldl
    (fun acc tx => (countInc acc.1 tx.receiver_id, countInc acc.2 tx.sender_id))
    ([], [])

/-- `m[account] >= t` in JS: `undefined >= t` is false. -/
def mapGe (m : CountMap) (account : String) (t : Nat) : Bool :=
  match alistLookup m account with
  | some n => t ≤ n
  | none => false

/-- The per-account suspicion outcome (without the account id). -/
structure SuspicionResult where
  suspicion_score : Nat
  detected_patterns : List String
  ring_id : String
deriving Repr, DecidableEq

/-- SUSPICION ENGINE: additive score (+50 ring membership, +20 fan-in ≥ 5,
+20 fan-out ≥ 5, +10 velocity ≥ 10), clamped to 100; `null` when the score
is 0; `ring_id` is the first matching ring's id, else `"N/A"`. -/
def calculateSuspicion (account : String) (rings : List FraudRing)
    (fanIn fanOut velocityMap : CountMap) : Option SuspicionResult :=
  let score : Nat := 0
  let patterns : List String := []
  let ring := rings.find? (fun r => r.member_accounts.contains account)
  let st :=
    match ring with
    | some r => (score + 50, patterns ++ ["cycle_network"], some r.ring_id)
    | none => (score, patterns, (none : Option String))
  let st :=
    if mapGe fanIn account 5 then (st.1 + 20, st.2.1 ++ ["high_fan_in"], st.2.2) else st
  let st :=
    if mapGe fanOut account 5 then (st.1 + 20, st.2.1 ++ ["high_fan_out"], st.2.2) else st
  let st :=
    if mapGe velocityMap account 10 then (st.1 + 10, st.2.1 ++ ["high_velocity"], st.2.2) else st
  let score := min 100 st.1
  if score = 0 then none
  else some { suspicion_score := score, detected_patterns := st.2.1, ring_id := st.2.2.getD "N/A" }

/-- One entry of the `suspicious_accounts` report. -/
structure SuspiciousAccount where
  account_id : String
  suspicion_score : Nat
  detected_patterns : List String
  ring_id : String
deriving Repr, DecidableEq

/-- The orchestrator's `accounts` Set: every sender and receiver, deduplicated,
in insertion (first-occurrence) order. -/
def accountsOf (transactions : List Tx) : List String :=
  transactions.foldl
    (fun acc tx =>
      let acc := if tx.sender_id ∈ acc then acc else acc ++ [tx.sender_id]
      if tx.receiver_id ∈ acc then acc else acc ++ [tx.receiver_id])
    []

/-- Collect `{account_id, ...result}` for the accounts whose
`calculateSuspicion` outcome is non-null, in account-set iteration order. -/
def collectSuspicious (accounts : List String) (rings : List FraudRing)
    (fanIn fanOut velocityMap : CountMap) : List SuspiciousAccount :=
  accounts.flatMap (fun acc =>
    match calculateSuspicion acc rings fanIn fanOut velocityMap with
    | some r => [{ account_id := acc, suspicion_score := r.suspicion_score,
                   detected_patterns := r.detected_patterns, ring_id := r.ring_id }]
    | none => [])

/-- `suspicious_accounts.sort((a, b) => b.suspicion_score - a.suspicion_score)`:
a stable sort that lets `a` stay before `b` iff the comparator is ≤ 0,
i.e. iff `b.suspicion_score ≤ a.suspicion_score`. -/
def sortSuspicious (l : List SuspiciousAccount) : List SuspiciousAccount :=
  l.mergeSort (fun a b => b.suspicion_score ≤ a.suspicion_score)

/-- The unsorted suspicious-account list assembled by the orchestrator. -/
def analyzePre (transactions : List Tx) : List SuspiciousAccount :=
  let gv := buildGraph transactions
  let rings := detectCycles gv.1
  let fans := detectFanPatterns transactions
  collectSuspicious (accountsOf transactions) rings fans.1 fans.2 gv.2

/-- The full pipeline of the POST /analyze handler:
`(suspicious_accounts sorted by descending score, fraud_rings)`. -/
def analyze (transactions : List Tx) : List SuspiciousAccount × List FraudRing :=
  (sortSuspicious (analyzePre transactions), detectCycles (buildGraph transactions).1)

/-! ### Helper lemmas about the counting maps -/

theorem alistLookup_countInc (m : CountMap) (k a : String) :
    alistLookup (countInc m k) a =
      if a = k then some ((alistLookup m a).getD 0 + 1) else alistLookup m a := by
  induction m with
  | nil => by_cases h : a = k <;> simp [countInc, alistLookup, h]
  | cons p rest ih =>
    obtain ⟨k₀, n⟩ := p
    by_cases h1 : k₀ = k <;> by_cases h2 : a = k₀ <;>
      (simp [countInc, alistLookup, h1, h2, ih]; try simp_all)

theorem foldl_countInc_getD (f : Tx → String) (transactions : List Tx) :
    ∀ (m : CountMap) (a : String),
      (alistLookup (transactions.foldl (fun m tx => countInc m (f tx)) m) a).getD 0 =
        (alistLookup m a).getD 0 + transactions.countP (fun tx => f tx = a) := by
  induction transactions with
  | nil => intro m a; simp
  | cons tx rest ih =>
    intro m a
    rw [List.foldl_cons, ih, alistLookup_countInc, List.countP_cons]
    by_cases h : a = f tx
    · subst h
      simp
      try omega
    · have h2 : ¬ (f tx = a) := fun hh => h hh.symm
      simp [h, h2]

theorem buildGraph_foldl_snd (transactions : List Tx) :
    ∀ (g : Graph) (v : CountMap),
      (transactions.foldl
        (fun acc tx => (graphAdd acc.1 tx.sender_id tx.receiver_id, countInc acc.2 tx.sender_id))
        (g, v)).2
      = transactions.foldl (fun m tx => countInc m tx.sender_id) v := by
  induction transactions with
  | nil => intro g v; rfl
  | cons tx rest ih => intro g v; exact ih _ _

theorem detectFanPatterns_foldl_snd (transactions : List Tx) :
    ∀ (fi fo : CountMap),
      (transactions.foldl
        (fun acc tx => (countInc acc.1 tx.receiver_id, countInc acc.2 tx.sender_id))
        (fi, fo)).2
      = transactions.foldl (fun m tx => countInc m tx.sender_id) fo := by
  induction transactions with
  | nil => intro fi fo; rfl
  | cons tx rest ih => intro fi fo; exact ih _ _

/-- C5: for every transaction list, the fanOut mapping of `detectFanPatterns`
is equal, as an association list (same keys, same counts), to the velocityMap
of `buildGraph`, and both count, per account, the transactions listing it as
sender. -/
theorem fanOut_eq_velocityMap (transactions : List Tx) :
    (detectFanPatterns transactions).2 = (buildGraph transactions).2 ∧
    ∀ a : String,
      (alistLookup ((detectFanPatterns transactions).2) a).getD 0 =
        transactions.countP (fun tx => tx.sender_id = a) := by
  constructor
  · rw [detectFanPatterns, buildGraph, detectFanPatterns_foldl_snd, buildGraph_foldl_snd]
  · intro a
    rw [detectFanPatterns, detectFanPatterns_foldl_snd, foldl_countInc_getD]
    simp [alistLookup]

/-- C8: on the empty transaction list every stage yields its empty result and
no account is flagged. -/
theorem engine_empty_input :
    buildGraph [] = ([], []) ∧ detectFanPatterns [] = ([], []) ∧
    detectCycles [] = [] ∧ accountsOf [] = [] ∧ analyze [] = ([], []) := by
  refine ⟨rfl, rfl, rfl, rfl, ?_⟩
  simp [analyze, analyzePre, sortSuspicious, collectSuspicious, accountsOf,
    buildGraph, detectFanPatterns, detectCycles, detectCyclesPaths, jsKeys,
    sortArrayIndexKeys]

/-- C9: the pipeline is deterministic — two runs on identical transaction
lists produce identical output, ring ids included (the RING_NNN counter is
re-initialised to 1 inside every `detectCycles` invocation, so it carries no
state between runs). -/
theorem analyze_deterministic (t₁ t₂ : List Tx) (h : t₁ = t₂) :
    analyze t₁ = analyze t₂ ∧
    (detectCycles (buildGraph t₁).1).map FraudRing.ring_id =
      (detectCycles (buildGraph t₂).1).map FraudRing.ring_id := by
  subst h; exact ⟨rfl, rfl⟩

/-- Witness for C9 at a concrete transaction list. -/
theorem analyze_deterministic_witness :
    analyze [⟨"A", "B"⟩, ⟨"B", "C"⟩, ⟨"C", "A"⟩] = analyze [⟨"A", "B"⟩, ⟨"B", "C"⟩, ⟨"C", "A"⟩] ∧
    (detectCycles (buildGraph [⟨"A", "B"⟩, ⟨"B", "C"⟩, ⟨"C", "A"⟩]).1).map FraudRing.ring_id =
      (detectCycles (buildGraph [⟨"A", "B"⟩, ⟨"B", "C"⟩, ⟨"C", "A"⟩]).1).map FraudRing.ring_id :=
  analyze_deterministic _ _ rfl

/-! ### The scoring rule as the spec words it (C1) and the unclamped variant (C10) -/

/-- The scoring rule exactly as the spec words it: an additive sum of the
four signal bonuses, `min(100, sum)` as final score, no result when the sum
is 0, patterns in signal order, and `ring_id` the first matching ring's id
in list order, else the sentinel `"N/A"`. -/
def specSuspicion (account : String) (rings : List FraudRing)
    (fanIn fanOut velocityMap : CountMap) : Option SuspicionResult :=
  let ringHit := rings.find? (fun r => r.member_accounts.contains account)
  let sum : Nat :=
    (if ringHit.isSome then 50 else 0) +
    (if mapGe fanIn account 5 then 20 else 0) +
    (if mapGe fanOut account 5 then 20 else 0) +
    (if mapGe velocityMap account 10 then 10 else 0)
  if sum = 0 then none
  else some
    { suspicion_score := min 100 sum
      detected_patterns :=
        (if ringHit.isSome then ["cycle_network"] else []) ++
        (if mapGe fanIn account 5 then ["high_fan_in"] else []) ++
        (if mapGe fanOut account 5 then ["high_fan_out"] else []) ++
        (if mapGe velocityMap account 10 then ["high_velocity"] else [])
      ring_id :=
        match ringHit with
        | some r => r.ring_id
        | none => "N/A" }

/-- C1: `calculateSuspicion` computes exactly the additive, clamped scoring
rule stated by the spec, for every account and every input. -/
theorem calculateSuspicion_eq_spec (account : String) (rings : List FraudRing)
    (fanIn fanOut velocityMap : CountMap) :
    calculateSuspicion account rings fanIn fanOut velocityMap =
      specSuspicion account rings fanIn fanOut velocityMap := by
  unfold calculateSuspicion specSuspicion
  cases hfind : rings.find? (fun r => r.member_accounts.contains account) <;>
    simp only [Option.isSome, Option.getD] <;>
    by_cases h1 : mapGe fanIn account 5 <;>
    by_cases h2 : mapGe fanOut account 5 <;>
    by_cases h3 : mapGe velocityMap account 10 <;>
    simp [h1, h2, h3]

/-- Modelled from the claim's words: `calculateSuspicion` with the
`Math.min(100, score)` clamp removed. -/
def calculateSuspicionNoClamp (account : String) (rings : List FraudRing)
    (fanIn fanOut velocityMap : CountMap) : Option SuspicionResult :=
  let score : Nat := 0
  let patterns : List String := []
  let ring := rings.find? (fun r => r.member_accounts.contains account)
  let st :=
    match ring with
    | some r => (score + 50, patterns ++ ["cycle_network"], some r.ring_id)
    | none => (score, patterns, (none : Option String))
  let st :=
    if mapGe fanIn account 5 then (st.1 + 20, st.2.1 ++ ["high_fan_in"], st.2.2) else st
  let st :=
    if mapGe fanOut account 5 then (st.1 + 20, st.2.1 ++ ["high_fan_out"], st.2.2) else st
  let st :=
    if mapGe velocityMap account 10 then (st.1 + 10, st.2.1 ++ ["high_velocity"], st.2.2) else st
  let score := st.1
  if score = 0 then none
  else some { suspicion_score := score, detected_patterns := st.2.1, ring_id := st.2.2.getD "N/A" }

/-- C10: the clamp is a no-op — the maximum attainable raw sum is
50+20+20+10 = 100, so `min(100, score)` never changes the score and
`calculateSuspicion` is extensionally equal to the unclamped variant. -/
theorem calculateSuspicion_clamp_noop (account : String) (rings : List FraudRing)
    (fanIn fanOut velocityMap : CountMap) :
    calculateSuspicion account rings fanIn fanOut velocityMap =
      calculateSuspicionNoClamp account rings fanIn fanOut velocityMap := by
  unfold calculateSuspicion calculateSuspicionNoClamp
  cases hfind : rings.find? (fun r => r.member_accounts.contains account) <;>
    by_cases h1 : mapGe fanIn account 5 <;>
    by_cases h2 : mapGe fanOut account 5 <;>
    by_cases h3 : mapGe velocityMap account 10 <;>
    simp [h1, h2, h3]

/-! ### Invariants of the bounded DFS (C3, C4) -/

/-- Every path recorded by the DFS has at least 3 members, at most
`path.length + fuel - 1` members, and is duplicate-free whenever the path
it started from is. -/
theorem dfs_mem_spec {fuel : Nat} :
    ∀ {graph : Graph} {start current : String} {path p : List String},
      p ∈ dfs graph start current path fuel →
      3 ≤ p.length ∧ p.length + 1 ≤ path.length + fuel ∧ (path.Nodup → p.Nodup) := by
  induction fuel with
  | zero => intro graph start current path p hmem; simp [dfs] at hmem
  | succ fuel ih =>
    intro graph start current path p hmem
    rw [dfs] at hmem
    cases halist : alistLookup graph current with
    | none => rw [halist] at hmem; simp at hmem
    | some neighbors =>
      rw [halist] at hmem
      simp only [List.mem_flatMap, List.mem_append] at hmem
      obtain ⟨neighbor, hn, hcase⟩ := hmem
      rcases hcase with hrec | hrec
      · by_cases hg : neighbor = start ∧ 3 ≤ path.length
        · rw [if_pos hg] at hrec
          simp only [List.mem_singleton] at hrec
          subst hrec
          exact ⟨hg.2, by omega, fun h => h⟩
        · rw [if_neg hg] at hrec
          simp at hrec
      · by_cases hmemp : neighbor ∈ path
        · rw [if_pos hmemp] at hrec
          simp at hrec
        · rw [if_neg hmemp] at hrec
          obtain ⟨h3, hlen, hnd⟩ := ih hrec
          refine ⟨h3, ?_, fun hpnd => hnd ?_⟩
          · simp only [List.length_append, List.length_singleton] at hlen
            omega
          · simp [List.nodup_append, hpnd, hmemp]

/-- Every ring produced by `detectCycles` has between 3 and 7 member
accounts, none repeated. -/
theorem detectCycles_mem_spec {graph : Graph} {r : FraudRing}
    (h : r ∈ detectCycles graph) :
    3 ≤ r.member_accounts.length ∧ r.member_accounts.length ≤ 7 ∧
      r.member_accounts.Nodup := by
  rw [detectCycles] at h
  simp only [List.mem_map] at h
  obtain ⟨⟨idx, q⟩, hp, hr⟩ := h
  have hpath : q ∈ detectCyclesPaths graph := by
    obtain ⟨hlt, heq⟩ := List.mem_enum hp
    rw [heq]
    exact List.getElem_mem hlt
  subst hr
  rw [detectCyclesPaths] at hpath
  simp only [List.mem_flatMap] at hpath
  obtain ⟨node, hnode, hdfs⟩ := hpath
  obtain ⟨h3, hlen, hnd⟩ := dfs_mem_spec hdfs
  refine ⟨h3, ?_, hnd (List.nodup_singleton node)⟩
  show q.length ≤ 7
  simp only [List.length_singleton] at hlen
  omega

/-- The transactions of a 7-cycle A→B→C→D→E→F→G→A. -/
def txsCycle7 : List Tx :=
  [⟨"A", "B"⟩, ⟨"B", "C"⟩, ⟨"C", "D"⟩, ⟨"D", "E"⟩, ⟨"E", "F"⟩, ⟨"F", "G"⟩, ⟨"G", "A"⟩]

/-- Counterexample to C3 as stated: on a 7-cycle, `detectCycles` records
rings with 7 member accounts (the recursion is entered while `depth ≤ 6`,
and the path recorded at depth 6 has 7 nodes), so "length at most 6" fails. -/
theorem detectCycles_length_six_refuted :
    ¬ (∀ r ∈ detectCycles (buildGraph txsCycle7).1, r.member_accounts.length ≤ 6) := by
  decide

/-- C3 amended: recursion stops once depth exceeds 6, so every ring produced
by `detectCycles` has member_accounts of length at most 7 (the path recorded
at depth 6 has 7 nodes; cycles of 8 or more hops are not detected). -/
theorem detectCycles_length_le_seven {graph : Graph} {r : FraudRing}
    (h : r ∈ detectCycles graph) : r.member_accounts.length ≤ 7 :=
  (detectCycles_mem_spec h).2.1

/-- Witness for the amended C3 at the concrete 7-cycle graph. -/
theorem detectCycles_length_le_seven_witness :
    (⟨"RING_001", ["A", "B", "C", "D", "E", "F", "G"], "cycle", 97⟩ : FraudRing) ∈
        detectCycles (buildGraph txsCycle7).1 ∧
    (⟨"RING_001", ["A", "B", "C", "D", "E", "F", "G"], "cycle", 97⟩ :
        FraudRing).member_accounts.length ≤ 7 :=
  ⟨by decide,
   @detectCycles_length_le_seven (buildGraph txsCycle7).1
     ⟨"RING_001", ["A", "B", "C", "D", "E", "F", "G"], "cycle", 97⟩ (by decide)⟩

/-- The transactions of a 3-cycle A→B→C→A. -/
def txsCycle3 : List Tx := [⟨"A", "B"⟩, ⟨"B", "C"⟩, ⟨"C", "A"⟩]

/-- C4: every ring produced by `detectCycles` has at least 3 member accounts
and contains no duplicate account id. -/
theorem detectCycles_ring_wellformed {graph : Graph} {r : FraudRing}
    (h : r ∈ detectCycles graph) :
    3 ≤ r.member_accounts.length ∧ r.member_accounts.Nodup :=
  ⟨(detectCycles_mem_spec h).1, (detectCycles_mem_spec h).2.2⟩

/-- Witness for C4 at the concrete 3-cycle graph. -/
theorem detectCycles_ring_wellformed_witness :
    (⟨"RING_001", ["A", "B", "C"], "cycle", 93⟩ : FraudRing) ∈
        detectCycles (buildGraph txsCycle3).1 ∧
    (3 ≤ (⟨"RING_001", ["A", "B", "C"], "cycle", 93⟩ : FraudRing).member_accounts.length ∧
      (⟨"RING_001", ["A", "B", "C"], "cycle", 93⟩ : FraudRing).member_accounts.Nodup) :=
  ⟨by decide,
   @detectCycles_ring_wellformed (buildGraph txsCycle3).1
     ⟨"RING_001", ["A", "B", "C"], "cycle", 93⟩ (by decide)⟩

/-- Counterexample to C2 as stated: on the 3-cycle A→B→C→A the outer loop
starts a fresh search from each of the three nodes and each start rediscovers
the cycle, so `detectCycles` produces three rings, not exactly one. -/
theorem detectCycles_three_cycle_not_unique :
    ¬ ((detectCycles (buildGraph txsCycle3).1).length = 1) := by
  decide

/-- Inserting into a value-ascending list permutes consing. -/
theorem insertByVal_perm (k : String) (l : List String) :
    List.Perm (insertByVal k l) (k :: l) := by
  induction l with
  | nil => exact List.Perm.refl _
  | cons k₀ rest ih =>
    rw [insertByVal]
    by_cases h : digitsVal k.data ≤ digitsVal k₀.data
    · rw [if_pos h]
    · rw [if_neg h]
      exact (ih.cons k₀).trans (List.Perm.swap k k₀ rest)

/-- The array-index key sort is a permutation of its input. -/
theorem sortArrayIndexKeys_perm (l : List String) :
    List.Perm (sortArrayIndexKeys l) l := by
  induction l with
  | nil => exact List.Perm.refl _
  | cons k rest ih =>
    exact (insertByVal_perm k (sortArrayIndexKeys rest)).trans (ih.cons k)

/-- A flatMap whose pieces are all singletons is a map. -/
theorem flatMap_eq_map_of_forall_singleton {α β : Type} {l : List α}
    {f : α → List β} {g : α → β} (h : ∀ x ∈ l, f x = [g x]) :
    l.flatMap f = l.map g := by
  induction l with
  | nil => rfl
  | cons x xs ih =>
    rw [List.flatMap_cons, List.map_cons, h x (List.mem_cons_self x xs),
        ih (fun y hy => h y (List.mem_cons_of_mem x hy)), List.singleton_append]

/-- Enumerating a mapped list maps the payloads of the enumeration. -/
theorem enumFrom_map_pair {α β : Type} (f : α → β) :
    ∀ (n : Nat) (l : List α),
      (l.map f).enumFrom n = (l.enumFrom n).map (fun p => (p.1, f p.2))
  | _, [] => rfl
  | n, x :: xs => by
    simp [List.enumFrom_cons, enumFrom_map_pair f (n + 1) xs]

/-- `List.enum` version of `enumFrom_map_pair`. -/
theorem enum_map_pair {α β : Type} (f : α → β) (l : List α) :
    (l.map f).enum = l.enum.map (fun p => (p.1, f p.2)) :=
  enumFrom_map_pair f 0 l

/-- A `threeRotation` always lists 3 accounts. -/
theorem threeRotation_length (A B C k : String) :
    (threeRotation A B C k).length = 3 := by
  unfold threeRotation
  split_ifs <;> rfl

/-- C2 amended: for the transaction list encoding exactly the edges A→B, B→C,
C→A over pairwise distinct accounts, `detectCycles` produces exactly three
rings, one per starting node of the outer `for...in` loop, which enumerates
the graph keys {A,B,C} with integer-like ids first in ascending numeric
order and the rest in insertion order (`jsKeys`); the n-th start k yields
ring RING_00n with member_accounts the rotation [k, next k, next next k]
and risk_score 93. -/
theorem detectCycles_three_cycle (A B C : String)
    (hAB : A ≠ B) (hBC : B ≠ C) (hAC : A ≠ C) :
    List.Perm (jsKeys (buildGraph [⟨A, B⟩, ⟨B, C⟩, ⟨C, A⟩]).1) [A, B, C] ∧
    detectCycles (buildGraph [⟨A, B⟩, ⟨B, C⟩, ⟨C, A⟩]).1 =
      (jsKeys (buildGraph [⟨A, B⟩, ⟨B, C⟩, ⟨C, A⟩]).1).enum.map
        (fun p => ⟨ringIdOfCount (p.1 + 1), threeRotation A B C p.2, "cycle", 93⟩) := by
  have hBA := hAB.symm
  have hCB := hBC.symm
  have hCA := hAC.symm
  have hg : (buildGraph [⟨A, B⟩, ⟨B, C⟩, ⟨C, A⟩]).1 = [(A, [B]), (B, [C]), (C, [A])] := by
    simp [buildGraph, graphAdd, hAB, hBC, hAC, hBA, hCB, hCA]
  have hperm : List.Perm (jsKeys [(A, [B]), (B, [C]), (C, [A])]) [A, B, C] := by
    refine List.Perm.trans ?_ (List.filter_append_perm isArrayIndex [A, B, C])
    exact (sortArrayIndexKeys_perm _).append_right _
  have hdfs : ∀ k ∈ ([A, B, C] : List String),
      dfs [(A, [B]), (B, [C]), (C, [A])] k k [k] 7 = [threeRotation A B C k] := by
    intro k hk
    have hor : k = A ∨ k = B ∨ k = C := by simpa using hk
    rcases hor with h | h | h <;> subst h <;>
      simp [dfs, alistLookup, threeRotation, hAB, hBC, hAC, hBA, hCB, hCA]
  rw [hg]
  refine ⟨hperm, ?_⟩
  have hpaths : detectCyclesPaths [(A, [B]), (B, [C]), (C, [A])] =
      (jsKeys [(A, [B]), (B, [C]), (C, [A])]).map (threeRotation A B C) :=
    flatMap_eq_map_of_forall_singleton (fun x hx => hdfs x (hperm.mem_iff.mp hx))
  rw [detectCycles, hpaths, enum_map_pair, List.map_map]
  apply List.map_congr_left
  intro p hp
  simp [Function.comp, threeRotation_length]

/-- Witness for the amended C2 at the concrete accounts "A", "B", "C". -/
theorem detectCycles_three_cycle_witness :
    List.Perm (jsKeys (buildGraph [⟨"A", "B"⟩, ⟨"B", "C"⟩, ⟨"C", "A"⟩]).1) ["A", "B", "C"] ∧
    detectCycles (buildGraph [⟨"A", "B"⟩, ⟨"B", "C"⟩, ⟨"C", "A"⟩]).1 =
      (jsKeys (buildGraph [⟨"A", "B"⟩, ⟨"B", "C"⟩, ⟨"C", "A"⟩]).1).enum.map
        (fun p => ⟨ringIdOfCount (p.1 + 1), threeRotation "A" "B" "C" p.2, "cycle", 93⟩) :=
  detectCycles_three_cycle "A" "B" "C" (by decide) (by decide) (by decide)

/-- A ledger where account X is in a detected ring, has fanOut 10 ≥ 5,
velocity 10 ≥ 10 and ALSO fanIn 5 ≥ 5. -/
def txsAllSignals : List Tx :=
  [⟨"X", "Y"⟩, ⟨"Y", "Z"⟩, ⟨"Z", "X"⟩,
   ⟨"X", "A1"⟩, ⟨"X", "A2"⟩, ⟨"X", "A3"⟩, ⟨"X", "A4"⟩, ⟨"X", "A5"⟩,
   ⟨"X", "A6"⟩, ⟨"X", "A7"⟩, ⟨"X", "A8"⟩, ⟨"X", "A9"⟩,
   ⟨"B1", "X"⟩, ⟨"B2", "X"⟩, ⟨"B3", "X"⟩, ⟨"B4", "X"⟩]

/-- A ledger where account X is in a detected ring, has fanOut 10 ≥ 5,
velocity 10 ≥ 10 and fanIn 1 < 5. -/
def txsRingFanVel : List Tx :=
  [⟨"X", "Y"⟩, ⟨"Y", "Z"⟩, ⟨"Z", "X"⟩,
   ⟨"X", "A1"⟩, ⟨"X", "A2"⟩, ⟨"X", "A3"⟩, ⟨"X", "A4"⟩, ⟨"X", "A5"⟩,
   ⟨"X", "A6"⟩, ⟨"X", "A7"⟩, ⟨"X", "A8"⟩, ⟨"X", "A9"⟩]

/-- Counterexample to C7 as stated: account X is in a detected ring, has
fanOut ≥ 5 and velocity ≥ 10 — the claim's premises — yet its score is 100,
not 80, because its fanIn is also ≥ 5 and adds a further +20. -/
theorem suspicion_eighty_refuted :
    (∃ r ∈ detectCycles (buildGraph txsAllSignals).1, "X" ∈ r.member_accounts) ∧
    mapGe (detectFanPatterns txsAllSignals).2 "X" 5 = true ∧
    mapGe (buildGraph txsAllSignals).2 "X" 10 = true ∧
    (calculateSuspicion "X" (detectCycles (buildGraph txsAllSignals).1)
        (detectFanPatterns txsAllSignals).1 (detectFanPatterns txsAllSignals).2
        (buildGraph txsAllSignals).2).map (fun r => r.suspicion_score) ≠ some 80 := by
  decide

/-- C7 amended: an account that appears in some ring's member_accounts, has
fanOut ≥ 5, velocity ≥ 10 — and whose fanIn stays below 5 — scores exactly
min(100, 50+20+10) = 80. -/
theorem ring_fanout_velocity_score_eighty (account : String) (rings : List FraudRing)
    (fanIn fanOut velocityMap : CountMap)
    (hring : ∃ r ∈ rings, account ∈ r.member_accounts)
    (hfo : mapGe fanOut account 5 = true)
    (hv : mapGe velocityMap account 10 = true)
    (hfi : mapGe fanIn account 5 = false) :
    (calculateSuspicion account rings fanIn fanOut velocityMap).map
      (fun r => r.suspicion_score) = some (min 100 (50 + 20 + 10)) := by
  have hsome : (rings.find? (fun r => r.member_accounts.contains account)).isSome := by
    rw [List.find?_isSome]
    obtain ⟨r, hr, hmem⟩ := hring
    exact ⟨r, hr, by simpa using hmem⟩
  obtain ⟨r, hfind⟩ := Option.isSome_iff_exists.mp hsome
  have hfind2 : rings.find? (fun r => decide (account ∈ r.member_accounts)) = some r := by
    simpa using hfind
  unfold calculateSuspicion
  simp [hfind, hfind2, hfo, hv, hfi]

/-- Witness for the amended C7 at a concrete ledger. -/
theorem ring_fanout_velocity_score_eighty_witness :
    (calculateSuspicion "X" (detectCycles (buildGraph txsRingFanVel).1)
        (detectFanPatterns txsRingFanVel).1 (detectFanPatterns txsRingFanVel).2
        (buildGraph txsRingFanVel).2).map
      (fun r => r.suspicion_score) = some (min 100 (50 + 20 + 10)) :=
  ring_fanout_velocity_score_eighty "X" (detectCycles (buildGraph txsRingFanVel).1)
    (detectFanPatterns txsRingFanVel).1 (detectFanPatterns txsRingFanVel).2
    (buildGraph txsRingFanVel).2
    (by decide) (by decide) (by decide) (by decide)

/-- C6: the suspicious_accounts list produced by the pipeline is sorted
non-increasing by suspicion_score, and ties retain the iteration order of
the deduplicated account set: for every score value, the tied entries appear
in exactly the order the unsorted collection pass produced them. -/
theorem suspicious_sorted_stable (transactions : List Tx) :
    ((analyze transactions).1).Pairwise
      (fun a b => b.suspicion_score ≤ a.suspicion_score) ∧
    ∀ c : Nat,
      ((analyze transactions).1).filter (fun a => a.suspicion_score == c) =
        (analyzePre transactions).filter (fun a => a.suspicion_score == c) := by
  have hfst : (analyze transactions).1 =
      List.mergeSort (analyzePre transactions)
        (fun a b => decide (b.suspicion_score ≤ a.suspicion_score)) := rfl
  have htrans : ∀ (a b c : SuspiciousAccount),
      decide (b.suspicion_score ≤ a.suspicion_score) = true →
      decide (c.suspicion_score ≤ b.suspicion_score) = true →
      decide (c.suspicion_score ≤ a.suspicion_score) = true := by
    intro a b c hab hbc
    simp only [decide_eq_true_eq] at hab hbc ⊢
    omega
  have htotal : ∀ (a b : SuspiciousAccount),
      (decide (b.suspicion_score ≤ a.suspicion_score) ||
       decide (a.suspicion_score ≤ b.suspicion_score)) = true := by
    intro a b
    simp only [Bool.or_eq_true, decide_eq_true_eq]
    omega
  constructor
  · rw [hfst]
    have h := List.sorted_mergeSort htrans htotal (analyzePre transactions)
    exact h.imp (fun hab => decide_eq_true_eq.mp hab)
  · intro c
    rw [hfst]
    have hpw : (List.filter (fun a => a.suspicion_score == c) (analyzePre transactions)).Pairwise
        (fun a b => decide (b.suspicion_score ≤ a.suspicion_score) = true) := by
      apply List.pairwise_of_forall_mem_list
      intro a ha b hb
      have ha2 := (List.mem_filter.mp ha).2
      have hb2 := (List.mem_filter.mp hb).2
      simp only [beq_iff_eq] at ha2 hb2
      simp only [decide_eq_true_eq, ha2, hb2]
      exact Nat.le_refl c
    have hsub : List.Sublist
        (List.filter (fun a => a.suspicion_score == c) (analyzePre transactions))
        (List.mergeSort (analyzePre transactions)
          (fun a b => decide (b.suspicion_score ≤ a.suspicion_score))) :=
      List.sublist_mergeSort htrans htotal hpw (List.filter_sublist _)
    have hsub2 := hsub.filter (fun a => a.suspicion_score == c)
    rw [List.filter_filter] at hsub2
    have hidem : List.filter
        (fun a => (a.suspicion_score == c) && (a.suspicion_score == c))
        (analyzePre transactions) =
        List.filter (fun a => a.suspicion_score == c) (analyzePre transactions) := by
      apply List.filter_congr
      intro a ha
      cases h : (a.suspicion_score == c) <;> simp [h]
    rw [hidem] at hsub2
    have hperm : List.Perm
        ((List.mergeSort (analyzePre transactions)
          (fun a b => decide (b.suspicion_score ≤ a.suspicion_score))).filter
            (fun a => a.suspicion_score == c))
        ((analyzePre transactions).filter (fun a => a.suspicion_score == c)) :=
      (List.mergeSort_perm (analyzePre transactions) _).filter _
    exact (hsub2.eq_of_length hperm.length_eq.symm).symm
